import Mathlib

/-!
Verification of the kubelogs log-aggregation pipeline.

This file gives a shallow embedding, in Lean 4, of the parts of the
kubelogs source that the checked claims are about: the deduplication
hash, the SQLite-backed storage engine (write buffer, flush, query
building, pagination, schema migration), the collector batcher with its
circuit breaker, the per-container stream resume cursor, the gRPC wire
conversions, and the log-line parser.  Machine integers are modelled as
Nat or Int with explicit reductions modulo powers of two where the Go
code relies on fixed-width arithmetic.
-/

set_option maxRecDepth 4000

namespace KubeLogs

/-! ## Deduplication hash (internal/storage/sqlite, computeDedupHash)

64-bit FNV-1a, written exactly as the Go code writes it: the timestamp
as eight little-endian bytes, then namespace, 0x00, pod, 0x00,
container, 0x00, message.  Go strings are hashed as their UTF-8 bytes;
utf8Bytes below is the standard UTF-8 encoding of a code point.
-/

/-- FNV-1a 64-bit offset basis. -/
def fnvOffset : Nat := 14695981039346656037

/-- FNV-1a 64-bit prime. -/
def fnvPrime : Nat := 1099511628211

/-- One FNV-1a step: xor in a byte, multiply by the prime, mod 2^64. -/
def fnvStep (h b : Nat) : Nat := ((h ^^^ b) * fnvPrime) % (2 ^ 64)

/-- Hash a list of bytes starting from state h (hash.Hash64.Write). -/
def fnvWrite (h : Nat) (bs : List Nat) : Nat := bs.foldl fnvStep h

/-- FNV-1a 64-bit hash of a byte sequence (fnv.New64a then Write). -/
def fnv1a (bs : List Nat) : Nat := fnvWrite fnvOffset bs

/-- Go uint64(x) for an int64 value x. -/
def toUInt64n (x : Int) : Nat := (x.emod (2 ^ 64)).toNat

/-- Eight little-endian bytes of a 64-bit value
(binary.LittleEndian.PutUint64). -/
def le64Bytes (n : Nat) : List Nat :=
  (List.range 8).map (fun i => (n >>> (8 * i)) % 256)

/-- UTF-8 bytes of one code point, as Go produces for a byte slice
conversion of a string. -/
def utf8Bytes (c : Char) : List Nat :=
  let n := c.toNat
  if n < 128 then [n]
  else if n < 2048 then [192 + n / 64, 128 + n % 64]
  else if n < 65536 then [224 + n / 4096, 128 + (n / 64) % 64, 128 + n % 64]
  else [240 + n / 262144, 128 + (n / 4096) % 64, 128 + (n / 64) % 64, 128 + n % 64]

/-- UTF-8 bytes of a string, as Go []byte(s). -/
def strBytes (s : String) : List Nat := s.data.foldr (fun c acc => utf8Bytes c ++ acc) []

/-- Reinterpret a 64-bit unsigned value as Go int64 (the final cast in
computeDedupHash). -/
def toInt64 (n : Nat) : Int :=
  if n < 2 ^ 63 then (n : Int) else (n : Int) - 2 ^ 64

/-- computeDedupHash from internal/storage/sqlite: sequential FNV-1a
writes of LE64(timestamp), namespace, 0x00, pod, 0x00, container, 0x00,
message, returned as int64. -/
def computeDedupHash (timestampNano : Int) (ns pod container message : String) : Int :=
  let h0 := fnvOffset
  let h1 := fnvWrite h0 (le64Bytes (toUInt64n timestampNano))
  let h2 := fnvWrite h1 (strBytes ns)
  let h3 := fnvWrite h2 [0]
  let h4 := fnvWrite h3 (strBytes pod)
  let h5 := fnvWrite h4 [0]
  let h6 := fnvWrite h5 (strBytes container)
  let h7 := fnvWrite h6 [0]
  let h8 := fnvWrite h7 (strBytes message)
  toInt64 h8

/-! ## Storage engine data model (internal/storage, internal/storage/sqlite)

A persisted row of the logs table.  The dedup column is nullable, as in
the schema; attributes are the JSON-serialized string map (the empty
list plays the role of NULL, which no query in the claims depends on).
-/

/-- A row of the logs table. -/
structure Row where
  id : Nat
  timestamp : Int
  ns : String
  pod : String
  container : String
  severity : Nat
  message : String
  attributes : List (String × String)
  hash : Option Int
deriving DecidableEq, Repr

/-- storage.LogEntry as handed to Store.Write (pre-persistence, no id). -/
structure LogEntry where
  timestamp : Int
  ns : String
  pod : String
  container : String
  severity : Nat
  message : String
  attributes : List (String × String)
deriving DecidableEq, Repr

/-- The 5-field deduplication tuple of an entry. -/
def dedupTuple (e : LogEntry) : Int × String × String × String × String :=
  (e.timestamp, e.ns, e.pod, e.container, e.message)

/-- Hash computed by Store.Flush for an entry. -/
def entryHash (e : LogEntry) : Int :=
  computeDedupHash e.timestamp e.ns e.pod e.container e.message

/-- Hash recomputed from a persisted row (backfillDedupHashes). -/
def rowHash (r : Row) : Int :=
  computeDedupHash r.timestamp r.ns r.pod r.container r.message

/-- The 5-field deduplication tuple of a persisted row. -/
def rowTuple (r : Row) : Int × String × String × String × String :=
  (r.timestamp, r.ns, r.pod, r.container, r.message)

/-- The committed database: rows plus the autoincrement counter. -/
structure DB where
  rows : List Row
  nextId : Nat
deriving DecidableEq, Repr

/-- The row a successful insert of an entry produces. -/
def mkRow (db : DB) (e : LogEntry) : Row :=
  { id := db.nextId, timestamp := e.timestamp, ns := e.ns, pod := e.pod,
    container := e.container, severity := e.severity, message := e.message,
    attributes := e.attributes, hash := some (entryHash e) }

/-- INSERT OR IGNORE under the partial unique index idx_logs_dedup: the
insert is ignored exactly when some existing row carries the same
non-NULL dedup hash. -/
def insertEntry (db : DB) (e : LogEntry) : DB :=
  if db.rows.any (fun r => r.hash == some (entryHash e)) then db
  else { rows := db.rows ++ [mkRow db e], nextId := db.nextId + 1 }

/-- The per-entry insert loop of a committed Store.Flush transaction. -/
def flushBatch (db : DB) (batch : List LogEntry) : DB := batch.foldl insertEntry db

/-! ## Query building and pagination (buildQuery, Store.Query) -/

/-- storage.Order; the zero value OrderDesc is the default. -/
inductive Order | desc | asc
deriving DecidableEq, Repr

/-- storage.Pagination.  Limit is a Go int; AfterID/BeforeID are int64,
only positive values add a bound. -/
structure Pagination where
  limit : Int
  afterID : Int
  beforeID : Int
  order : Order
deriving DecidableEq, Repr

/-- storage.Query.  A none time bound models a zero time.Time; empty
strings mean no filter, as in buildQuery. -/
structure Query where
  startTime : Option Int
  endTime : Option Int
  search : String
  ns : String
  pod : String
  container : String
  minSeverity : Nat
  attributes : List (String × String)
  pagination : Pagination
deriving DecidableEq, Repr

/-- json_extract on the serialized attribute map: first binding wins. -/
def attrLookup (attrs : List (String × String)) (k : String) : Option String :=
  (attrs.find? (fun kv => kv.1 == k)).map (fun kv => kv.2)

/-- The WHERE clause assembled by buildQuery, as a row predicate.  fts
is the FTS5 MATCH relation (search expression, message); its semantics
are left as a parameter, every claim below holds for all of them. -/
def rowMatches (fts : String → String → Bool) (q : Query) (r : Row) : Bool :=
  (match q.startTime with | none => true | some t => decide (t ≤ r.timestamp)) &&
  (match q.endTime with | none => true | some t => decide (r.timestamp < t)) &&
  (q.search == "" || fts q.search r.message) &&
  (q.ns == "" || r.ns == q.ns) &&
  (q.pod == "" || r.pod == q.pod) &&
  (q.container == "" || r.container == q.container) &&
  (q.minSeverity == 0 || decide (q.minSeverity ≤ r.severity)) &&
  q.attributes.all (fun kv => attrLookup r.attributes kv.1 == some kv.2) &&
  (decide (q.pagination.afterID ≤ 0) || decide (q.pagination.afterID < (r.id : Int))) &&
  (decide (q.pagination.beforeID ≤ 0) || decide ((r.id : Int) < q.pagination.beforeID))

/-- ORDER BY l.id DESC comparison. -/
def descLe (a b : Row) : Bool := decide (b.id ≤ a.id)

/-- ORDER BY l.id ASC comparison. -/
def ascLe (a b : Row) : Bool := decide (a.id ≤ b.id)

/-- ORDER BY clause of buildQuery. -/
def sortRows (o : Order) (l : List Row) : List Row :=
  match o with
  | .asc => l.mergeSort ascLe
  | .desc => l.mergeSort descLe

/-- Effective limit: defaultQueryLimit 100 when the requested limit is
zero or negative (computed identically in buildQuery and Store.Query). -/
def effectiveLimit (q : Query) : Nat :=
  if q.pagination.limit ≤ 0 then 100 else q.pagination.limit.toNat

/-- storage.QueryResult (entries, hasMore, nextCursor). -/
structure QueryResult where
  entries : List Row
  hasMore : Bool
  nextCursor : Nat
deriving DecidableEq, Repr

/-- Store.Query over a table: filter by the WHERE clause, sort, fetch
LIMIT limit+1 rows, then fold the extra row into hasMore/nextCursor. -/
def queryExec (fts : String → String → Bool) (q : Query) (table : List Row) : QueryResult :=
  let limit := effectiveLimit q
  let fetched := (sortRows q.pagination.order (table.filter (rowMatches fts q))).take (limit + 1)
  if h : limit < fetched.length then
    { entries := fetched.take limit, hasMore := true,
      nextCursor := (fetched.get ⟨limit, h⟩).id }
  else
    { entries := fetched, hasMore := false, nextCursor := 0 }

/-! ## Schema migration (runMigrations, backfillDedupHashes, deduplicateHashes)

The migration-level view of a database file: its logs table plus
whether the dedup_hash column and the idx_logs_dedup partial unique
index exist.
-/

/-- A database file as seen by runMigrations. -/
structure DBFile where
  table : List Row
  hasDedupColumn : Bool
  hasDedupIndex : Bool
deriving DecidableEq, Repr

/-- The hash a row carries after backfill: its stored hash if non-NULL,
else the recomputed one. -/
def effHash (r : Row) : Int :=
  match r.hash with
  | some h => h
  | none => rowHash r

/-- UPDATE logs SET dedup_hash = computed WHERE id IN ids (one backfill
transaction). -/
def setHashes (ids : List Nat) (t : List Row) : List Row :=
  t.map (fun r => if ids.contains r.id then { r with hash := some (rowHash r) } else r)

/-- Predicate for dedup_hash IS NULL. -/
def isNullHash (r : Row) : Bool := r.hash == none

/-- The backfill loop: repeatedly select up to 10000 rows with NULL
hash and update them, until a pass selects none.  Structural fuel
bounds the recursion; table.length + 1 always suffices. -/
def backfillLoop : Nat → List Row → List Row
  | 0, t => t
  | fuel + 1, t =>
    let batch := (t.filter isNullHash).take 10000
    if batch.isEmpty then t
    else backfillLoop fuel (setHashes (batch.map Row.id) t)

/-- backfillDedupHashes from the source. -/
def backfillDedupHashes (t : List Row) : List Row := backfillLoop (t.length + 1) t

/-- The SQL duplicate predicate: dedup_hash IS NOT NULL and some row
with the same hash has a smaller id. -/
def isDup (t : List Row) (r : Row) : Bool :=
  r.hash.isSome && t.any (fun r2 => r2.hash == r.hash && decide (r2.id < r.id))

/-- One DELETE pass of deduplicateHashes: remove up to 10000 duplicate
rows (the SQL selects an unspecified such subset; the model takes the
first ones in table order), by id. -/
def dedupPass (t : List Row) : List Row × Bool :=
  let victims := (t.filter (isDup t)).take 10000
  if victims.isEmpty then (t, false)
  else (t.filter (fun r => !(victims.any (fun v => v.id == r.id))), true)

/-- The deduplication loop: DELETE in 10000-row batches until a pass
removes no rows.  Structural fuel bounds the recursion; table.length +
1 always suffices. -/
def dedupLoop : Nat → List Row → List Row
  | 0, t => t
  | fuel + 1, t =>
    let p := dedupPass t
    if p.2 then dedupLoop fuel p.1 else t

/-- deduplicateHashes from the source (keep the smallest id per hash). -/
def deduplicateHashes (t : List Row) : List Row := dedupLoop (t.length + 1) t

/-- ALTER TABLE logs ADD COLUMN dedup_hash INTEGER: every existing row
gets a NULL hash. -/
def addDedupColumn (t : List Row) : List Row :=
  t.map (fun r => { r with hash := none })

/-- runMigrations from the source: fresh databases get the column, a
backfill and the index; databases with the column but no index get a
backfill, the keep-smallest-id deduplication and then the index;
fully migrated databases are untouched. -/
def runMigrations (db : DBFile) : DBFile :=
  if db.hasDedupColumn = false then
    { table := backfillDedupHashes (addDedupColumn db.table),
      hasDedupColumn := true, hasDedupIndex := true }
  else if db.hasDedupIndex = false then
    { table := deduplicateHashes (backfillDedupHashes db.table),
      hasDedupColumn := true, hasDedupIndex := true }
  else db

/-! ## Store.Flush as a transaction state machine (C7)

Flush swaps the buffer out, then runs one SQL transaction.  Every
failure point of the source (context check, BeginTx, PrepareContext,
any per-entry ExecContext, Commit) re-queues the swapped batch at the
head of the live buffer; the database changes only when Commit
succeeds, matching SQL transaction atomicity (the deferred Rollback
discards partial inserts).  arrived models entries appended
concurrently to the live buffer while the flush ran.
-/

/-- Where a flush attempt stops. -/
inductive FlushOutcome
  | ctxCancelled
  | beginFail
  | prepareFail
  | insertFail (i : Nat)
  | commitFail
  | ok
deriving DecidableEq, Repr

/-- In-memory store state: live buffer plus committed database. -/
structure StoreState where
  buffer : List LogEntry
  db : DB
deriving DecidableEq, Repr

/-- Store.Flush: swap the buffer, run the transaction to the given
outcome; on any failure prepend the batch to the live buffer (which
meanwhile holds arrived), on success commit every entry. -/
def storeFlush (s : StoreState) (arrived : List LogEntry) (outcome : FlushOutcome) : StoreState :=
  if s.buffer.isEmpty then { s with buffer := s.buffer ++ arrived }
  else
    let batch := s.buffer
    match outcome with
    | .ok => { buffer := arrived, db := flushBatch s.db batch }
    | _ => { buffer := batch ++ arrived, db := s.db }

/-! ## Batcher circuit breaker (internal/collector, Batcher) -/

/-- The retry/circuit state of the batcher (times in seconds). -/
structure Batcher where
  consecutiveFailures : Nat
  circuitOpen : Bool
  circuitOpenUntil : Nat
  retryQueue : List (List LogEntry)
  backoff : Nat
deriving DecidableEq, Repr

/-- circuitThreshold from the source. -/
def circuitThreshold : Nat := 5

/-- circuitTimeout from the source, in seconds. -/
def circuitTimeout : Nat := 30

/-- maxRetryQueue from the source. -/
def maxRetryQueue : Nat := 100

/-- Batcher.isCircuitOpen: closes the circuit (and resets the failure
counter) when the open window has elapsed, then reports the state. -/
def isCircuitOpenUpd (now : Nat) (b : Batcher) : Bool × Batcher :=
  if b.circuitOpen && decide (b.circuitOpenUntil < now) then
    (false, { b with circuitOpen := false, consecutiveFailures := 0 })
  else (b.circuitOpen, b)

/-- Batcher.recordFailure: bump the counter; at circuitThreshold open
the circuit for circuitTimeout. -/
def recordFailure (now : Nat) (b : Batcher) : Batcher :=
  let b2 := { b with consecutiveFailures := b.consecutiveFailures + 1 }
  if circuitThreshold ≤ b2.consecutiveFailures then
    { b2 with circuitOpen := true, circuitOpenUntil := now + circuitTimeout }
  else b2

/-- Batcher.recordSuccess: reset the failure counter and backoff. -/
def recordSuccess (b : Batcher) : Batcher :=
  { b with consecutiveFailures := 0, backoff := 1 }

/-- Batcher.addToRetryQueue: bounded FIFO, dropping the oldest batch
when full. -/
def addToRetryQueue (batch : List LogEntry) (b : Batcher) : Batcher :=
  let q := if maxRetryQueue ≤ b.retryQueue.length then b.retryQueue.tail else b.retryQueue
  { b with retryQueue := q ++ [batch] }

/-- Batcher.flush: with a non-empty buffer (batch), consult the circuit
breaker; while open, skip the write and queue the batch; otherwise
attempt the write (writeOk tells whether the store accepted it).  The
Bool result reports whether Store.Write was invoked. -/
def batcherFlush (now : Nat) (batch : List LogEntry) (writeOk : Bool) (b : Batcher) :
    Batcher × Bool :=
  if batch.isEmpty then (b, false)
  else
    let st := isCircuitOpenUpd now b
    if st.1 then (addToRetryQueue batch st.2, false)
    else if writeOk then (recordSuccess st.2, true)
    else (addToRetryQueue batch (recordFailure now st.2), true)

/-! ## Stream resume cursor (internal/collector, Stream)

Timestamps are nanoseconds as Nat; 0 stands for the zero time.Time
(IsZero).  A line is either sent downstream or dropped after the 10s
backpressure timeout; both advance lastSentTime past its timestamp.
-/

/-- Fate of one parsed line inside Stream.run. -/
inductive LineEvent
  | sent (ts : Nat)
  | dropped (ts : Nat)
deriving DecidableEq, Repr

/-- Timestamp of the line. -/
def eventTs : LineEvent → Nat
  | .sent ts => ts
  | .dropped ts => ts

/-- Cursor state of a Stream. -/
structure StreamState where
  sinceTime : Nat
  lastSentTime : Nat
deriving DecidableEq, Repr

/-- The cursor update both the send and the drop branch perform:
advance lastSentTime if the line timestamp is beyond it. -/
def applyEvent (last : Nat) (ev : LineEvent) : Nat :=
  if last < eventTs ev then eventTs ev else last

/-- One Stream.run: process its lines, updating only the cursor. -/
def runEvents (s : StreamState) (evs : List LineEvent) : StreamState :=
  { s with lastSentTime := evs.foldl applyEvent s.lastSentTime }

/-- The top of the Start retry loop: when the cursor is set, the next
request carries sinceTime = lastSentTime + 1ns. -/
def reopenUpdate (s : StreamState) : StreamState :=
  if s.lastSentTime ≠ 0 then { s with sinceTime := s.lastSentTime + 1 } else s

/-- Stream.Start after the given runs: each run is preceded by the
cursor-to-sinceTime update. -/
def startLoop (s : StreamState) (runs : List (List LineEvent)) : StreamState :=
  runs.foldl (fun st evs => runEvents (reopenUpdate st) evs) s

/-- The state carrying the sinceTime with which the next (re)open
issues its log request. -/
def nextOpen (s : StreamState) (runs : List (List LineEvent)) : StreamState :=
  reopenUpdate (startLoop s runs)

/-! ## gRPC wire conversions (remote/client.go and web/web.go) -/

/-- storage.LogEntry with its persistence id, as converted on the wire. -/
structure DomainEntry where
  id : Int
  timestamp : Int
  ns : String
  pod : String
  container : String
  severity : Nat
  message : String
  attributes : List (String × String)
deriving DecidableEq, Repr

/-- storagepb.LogEntry: timestamps as int64 nanoseconds, severity as
uint32. -/
structure PbLogEntry where
  id : Int
  timestampNanos : Int
  ns : String
  pod : String
  container : String
  severity : Nat
  message : String
  attributes : List (String × String)
deriving DecidableEq, Repr

/-- Result of Go time.Time.UnixNano, as int64 wraparound of the
instant in nanoseconds. -/
def unixNano (instant : Int) : Int :=
  (instant + 2 ^ 63) % (2 ^ 64) - 2 ^ 63

/-- toProtoEntry from internal/storage/remote/client.go. -/
def remoteToProtoEntry (e : DomainEntry) : PbLogEntry :=
  { id := e.id, timestampNanos := unixNano e.timestamp, ns := e.ns, pod := e.pod,
    container := e.container, severity := e.severity % 2 ^ 32, message := e.message,
    attributes := e.attributes }

/-- fromProtoEntry from internal/storage/remote/client.go
(time.Unix(0, nanos); storage.Severity is uint8). -/
def remoteFromProtoEntry (p : PbLogEntry) : DomainEntry :=
  { id := p.id, timestamp := p.timestampNanos, ns := p.ns, pod := p.pod,
    container := p.container, severity := p.severity % 2 ^ 8, message := p.message,
    attributes := p.attributes }

/-- toProtoEntry from internal/web/web.go (same code on the server). -/
def webToProtoEntry (e : DomainEntry) : PbLogEntry :=
  { id := e.id, timestampNanos := unixNano e.timestamp, ns := e.ns, pod := e.pod,
    container := e.container, severity := e.severity % 2 ^ 32, message := e.message,
    attributes := e.attributes }

/-- fromProtoEntry from internal/web/web.go. -/
def webFromProtoEntry (p : PbLogEntry) : DomainEntry :=
  { id := p.id, timestamp := p.timestampNanos, ns := p.ns, pod := p.pod,
    container := p.container, severity := p.severity % 2 ^ 8, message := p.message,
    attributes := p.attributes }

/-! ## Parser (internal/collector/parser.go)

The JSON path of Parser.Parse, modelled at the point where the leading
RFC3339 timestamp has been split off and json.Unmarshal has produced a
key/value object.  JSON values are modelled by Jval; non-integral
numbers are not needed by any claim input and are not modelled (jint
covers the integral float64 case, rendered without a decimal point).
-/

/-- A decoded JSON value as relevant to stringifyValue. -/
inductive Jval
  | jstr (s : String)
  | jint (n : Int)
  | jbool (b : Bool)
  | jnull
  | jarr
  | jobj
deriving DecidableEq, Repr

/-- stringifyValue from the source: scalars survive, integral numbers
render without a decimal point, arrays, objects and null give "". -/
def stringifyValue : Jval → String
  | .jstr s => s
  | .jint n => toString n
  | .jbool true => "true"
  | .jbool false => "false"
  | .jnull => ""
  | .jarr => ""
  | .jobj => ""

/-- Lookup in the decoded JSON object (Go map indexing; keys unique). -/
def lookupJ (data : List (String × Jval)) (k : String) : Option Jval :=
  (data.find? (fun kv => kv.1 == k)).map (fun kv => kv.2)

/-- jsonFieldAliases from the source, in source order. -/
def jsonFieldAliases : List (String × List String) :=
  [("msg", ["msg", "message", "error", "err"]),
   ("trace_id", ["trace_id", "traceId", "trace-id", "traceID"]),
   ("span_id", ["span_id", "spanId", "span-id", "spanID"]),
   ("request_id", ["request_id", "requestId", "request-id", "requestID", "req_id"]),
   ("caller", ["caller", "source", "file", "location"]),
   ("service", ["service", "app", "application"]),
   ("user_id", ["user_id", "userId", "user"])]

/-- The inner alias loop of extractJSONFields: first alias present with
a non-empty stringified value wins. -/
def firstAliasValue (data : List (String × Jval)) (aliases : List String) : Option String :=
  aliases.findSome? (fun a =>
    match lookupJ data a with
    | some v => if stringifyValue v == "" then none else some (stringifyValue v)
    | none => none)

/-- extractJSONFields from the source: one attribute per canonical
name; none when no field was extracted.  (Go iterates its alias map in
unspecified order; canonical names are distinct, so the extracted
bindings do not depend on it and the model uses source order.) -/
def extractJSONFields (data : List (String × Jval)) : Option (List (String × String)) :=
  let attrs := jsonFieldAliases.foldl (fun acc kv =>
    match firstAliasValue data kv.2 with
    | some s => acc ++ [(kv.1, s)]
    | none => acc) []
  if attrs.isEmpty then none else some attrs

/-- storage.ParseSeverity. -/
def parseSeverity (s : String) : Nat :=
  if s == "TRACE" || s == "trace" then 1
  else if s == "DEBUG" || s == "debug" then 2
  else if s == "INFO" || s == "info" then 3
  else if s == "WARN" || s == "warn" || s == "WARNING" || s == "warning" then 4
  else if s == "ERROR" || s == "error" then 5
  else if s == "FATAL" || s == "fatal" || s == "PANIC" || s == "panic" then 6
  else 0

/-- The severity loop of parseJSON over keys level, severity, lvl: a
non-empty string value overwrites the accumulator; the loop stops at
the first value that parses to a known severity. -/
def sevFromKeysGo (data : List (String × Jval)) : List String → Nat → Nat
  | [], acc => acc
  | k :: ks, acc =>
    match lookupJ data k with
    | some (.jstr s) =>
      if s == "" then sevFromKeysGo data ks acc
      else
        let sv := parseSeverity s
        if sv ≠ 0 then sv else sevFromKeysGo data ks sv
    | _ => sevFromKeysGo data ks acc

/-- Severity extraction of parseJSON. -/
def sevFromKeys (data : List (String × Jval)) : Nat :=
  sevFromKeysGo data ["level", "severity", "lvl"] 0

/-- parseJSON after a successful json.Unmarshal. -/
def parseJSONData (data : List (String × Jval)) : Nat × Option (List (String × String)) :=
  (sevFromKeys data, extractJSONFields data)

/-- parseStructured on a body whose JSON parse succeeded: the JSON
result is kept when it found a severity or attributes; otherwise the
logfmt/regex fall-through (fallback) applies. -/
def parseStructuredJson (data : List (String × Jval))
    (fallback : Nat × Option (List (String × String))) :
    Nat × Option (List (String × String)) :=
  let r := parseJSONData data
  if r.1 ≠ 0 ∨ r.2 ≠ none then r else fallback

/-- collector.ParseResult. -/
structure ParseResult where
  timestamp : Int
  severity : Nat
  message : String
  attributes : Option (List (String × String))
deriving DecidableEq, Repr

/-- Parser.Parse for a line whose RFC3339 prefix parses to ts and whose
remainder body json.Unmarshals to data: the Message field is the body
as returned by parseTimestamp, the severity and attributes come from
parseStructured. -/
def parseOnJsonLine (ts : Int) (body : String) (data : List (String × Jval))
    (fallback : Nat × Option (List (String × String))) : ParseResult :=
  let r := parseStructuredJson data fallback
  { timestamp := ts, severity := r.1, message := body, attributes := r.2 }

/-! ## Concrete fixtures used by pagination claims -/

/-- A minimal persisted row with the given id. -/
def plainRow (i : Nat) : Row := ⟨i, 0, (""), (""), (""), 0, (""), [], none⟩

/-- A table of n rows with ids n, n-1, ..., 1 (listed newest first;
the on-disk order of rows is immaterial to queries). -/
def descTable (n : Nat) : List Row := (List.range n).map (fun i => plainRow (n - i))

/-- A vacuous FTS MATCH relation (no query below searches). -/
def noFts : String → String → Bool := fun _ _ => false

/-- An otherwise unconstrained query with the given limit and afterId,
default (DESC) order. -/
def plainQuery (lim after : Int) : Query :=
  ⟨none, none, (""), (""), (""), (""), 0, [], ⟨lim, after, 0, .desc⟩⟩

/-- A concrete pre-dedup database file: the column exists, the index
does not, two NULL-hash rows collide (same dedup tuple) and one row
carries a stored hash. -/
def migrationFixture : DBFile :=
  { table := [⟨1, 0, ("a"), ("b"), ("c"), 0, ("m"), [], none⟩,
              ⟨2, 0, ("a"), ("b"), ("c"), 0, ("m"), [], none⟩,
              ⟨3, 0, ("x"), ("y"), ("z"), 0, ("w"), [], some 5⟩],
    hasDedupColumn := true, hasDedupIndex := false }

/-! ## Theorems -/

/-- C5: computeDedupHash is the 64-bit FNV-1a hash of
LE64(ts) then namespace, 0x00, pod, 0x00, container, 0x00, message with
no trailing separator, and the four claim tuples (1000,"ab","c","d","msg"),
(1000,"a","bc","d","msg"), (1000,"a","b","cd","msg"),
(1000,"a","b","c","dmsg") hash to four pairwise-distinct values. -/
theorem C5_dedup_hash_layout_and_distinct :
    (∀ (ts : Int) (ns pod container message : String),
      computeDedupHash ts ns pod container message =
        toInt64 (fnv1a (le64Bytes (toUInt64n ts) ++ strBytes ns ++ 0 :: strBytes pod
          ++ 0 :: strBytes container ++ 0 :: strBytes message))) ∧
    (computeDedupHash 1000 ("ab") ("c") ("d") ("msg") ≠
       computeDedupHash 1000 ("a") ("bc") ("d") ("msg") ∧
     computeDedupHash 1000 ("ab") ("c") ("d") ("msg") ≠
       computeDedupHash 1000 ("a") ("b") ("cd") ("msg") ∧
     computeDedupHash 1000 ("ab") ("c") ("d") ("msg") ≠
       computeDedupHash 1000 ("a") ("b") ("c") ("dmsg") ∧
     computeDedupHash 1000 ("a") ("bc") ("d") ("msg") ≠
       computeDedupHash 1000 ("a") ("b") ("cd") ("msg") ∧
     computeDedupHash 1000 ("a") ("bc") ("d") ("msg") ≠
       computeDedupHash 1000 ("a") ("b") ("c") ("dmsg") ∧
     computeDedupHash 1000 ("a") ("b") ("cd") ("msg") ≠
       computeDedupHash 1000 ("a") ("b") ("c") ("dmsg")) := by
  constructor
  · intro ts ns pod container message
    simp [computeDedupHash, fnv1a, fnvWrite, List.foldl_append]
  · refine ⟨by decide, by decide, by decide, by decide, by decide, by decide⟩

/-- C10: the wire encoding round-trips every entry whose timestamp fits
in signed 64-bit nanoseconds, across both directions of the transport
(client encode, server decode and vice versa). -/
theorem C10_proto_roundtrip (e : DomainEntry)
    (h1 : -(2 ^ 63) ≤ e.timestamp) (h2 : e.timestamp < 2 ^ 63) (h3 : e.severity < 2 ^ 8) :
    webFromProtoEntry (remoteToProtoEntry e) = e ∧
    remoteFromProtoEntry (webToProtoEntry e) = e := by
  obtain ⟨i, ts, ns, pod, c, sev, m, a⟩ := e
  simp only at h1 h2 h3
  have hmod : unixNano ts = ts := by
    unfold unixNano
    omega
  have hsev : sev % 4294967296 % 256 = sev := by
    rw [Nat.mod_eq_of_lt (by omega), Nat.mod_eq_of_lt (by omega)]
  constructor <;>
    simp [webFromProtoEntry, remoteToProtoEntry, remoteFromProtoEntry, webToProtoEntry,
      hmod, hsev]

/-- C10 witness at a concrete entry. -/
theorem C10_proto_roundtrip_witness :
    -(2 ^ 63) ≤ (5 : Int) ∧ (5 : Int) < 2 ^ 63 ∧ (3 : Nat) < 2 ^ 8 ∧
    (webFromProtoEntry (remoteToProtoEntry ⟨1, 5, ("a"), ("b"), ("c"), 3, ("m"), []⟩) =
        ⟨1, 5, ("a"), ("b"), ("c"), 3, ("m"), []⟩ ∧
     remoteFromProtoEntry (webToProtoEntry ⟨1, 5, ("a"), ("b"), ("c"), 3, ("m"), []⟩) =
        ⟨1, 5, ("a"), ("b"), ("c"), 3, ("m"), []⟩) :=
  ⟨by decide, by decide, by decide,
   C10_proto_roundtrip ⟨1, 5, ("a"), ("b"), ("c"), 3, ("m"), []⟩
     (by decide) (by decide) (by decide)⟩

/-- C7: the flush transaction is all-or-nothing: any failure outcome
leaves the database untouched and puts the whole batch back at the head
of the live buffer; success commits every entry and leaves only the
concurrently arrived entries buffered. -/
theorem C7_flush_all_or_nothing (s : StoreState) (arrived : List LogEntry)
    (outcome : FlushOutcome) (hne : s.buffer ≠ []) :
    (outcome ≠ .ok →
      storeFlush s arrived outcome = { buffer := s.buffer ++ arrived, db := s.db }) ∧
    (outcome = .ok →
      storeFlush s arrived outcome = { buffer := arrived, db := flushBatch s.db s.buffer }) := by
  have hbe : s.buffer.isEmpty = false := by
    simpa [List.isEmpty_iff] using hne
  cases outcome <;> simp [storeFlush, hbe]

/-- C7 witness at a concrete store, batch and failure point. -/
theorem C7_flush_all_or_nothing_witness :
    (({ buffer := [⟨0, ("n"), ("p"), ("c"), 3, ("m"), []⟩], db := ⟨[], 1⟩ } :
        StoreState).buffer ≠ []) ∧
    ((FlushOutcome.beginFail ≠ .ok →
      storeFlush { buffer := [⟨0, ("n"), ("p"), ("c"), 3, ("m"), []⟩], db := ⟨[], 1⟩ }
          [] .beginFail =
        { buffer := [⟨0, ("n"), ("p"), ("c"), 3, ("m"), []⟩] ++ [], db := ⟨[], 1⟩ }) ∧
     (FlushOutcome.beginFail = .ok →
      storeFlush { buffer := [⟨0, ("n"), ("p"), ("c"), 3, ("m"), []⟩], db := ⟨[], 1⟩ }
          [] .beginFail =
        { buffer := [],
          db := flushBatch ⟨[], 1⟩ [⟨0, ("n"), ("p"), ("c"), 3, ("m"), []⟩] })) :=
  ⟨by decide,
   C7_flush_all_or_nothing { buffer := [⟨0, ("n"), ("p"), ("c"), 3, ("m"), []⟩], db := ⟨[], 1⟩ }
     [] .beginFail (by decide)⟩

/-- The initial accumulator never exceeds a max-fold. -/
theorem foldl_max_init_le (a : Nat) (l : List Nat) : a ≤ l.foldl max a := by
  induction l generalizing a with
  | nil => exact Nat.le_refl a
  | cons x xs ih => exact Nat.le_trans (Nat.le_max_left a x) (ih (max a x))

/-- Every element is bounded by a max-fold over its list. -/
theorem le_foldl_max_of_mem {x : Nat} {l : List Nat} (h : x ∈ l) (a : Nat) :
    x ≤ l.foldl max a := by
  induction l generalizing a with
  | nil => cases h
  | cons y ys ih =>
    rcases List.mem_cons.mp h with rfl | hmem
    · exact Nat.le_trans (Nat.le_max_right a x) (foldl_max_init_le (max a x) ys)
    · exact ih hmem (max a y)

/-- The cursor update of Stream.run is the max with the line timestamp. -/
theorem applyEvent_eq_max (last : Nat) (ev : LineEvent) :
    applyEvent last ev = max last (eventTs ev) := by
  unfold applyEvent
  rcases Nat.lt_or_ge last (eventTs ev) with h | h
  · rw [if_pos h, Nat.max_eq_right (Nat.le_of_lt h)]
  · rw [if_neg (Nat.not_lt.mpr h), Nat.max_eq_left h]

/-- Folding the cursor update is a max-fold over the timestamps. -/
theorem foldl_applyEvent_eq (evs : List LineEvent) (a : Nat) :
    evs.foldl applyEvent a = (evs.map eventTs).foldl max a := by
  induction evs generalizing a with
  | nil => rfl
  | cons ev rest ih =>
    simp only [List.foldl_cons, List.map_cons, applyEvent_eq_max]
    exact ih (max a (eventTs ev))

/-- reopenUpdate never moves the cursor itself. -/
theorem reopenUpdate_lastSent (s : StreamState) :
    (reopenUpdate s).lastSentTime = s.lastSentTime := by
  unfold reopenUpdate
  split <;> rfl

/-- The cursor after any number of runs is the fold of all processed
line events over the initial cursor. -/
theorem startLoop_lastSent (s : StreamState) (runs : List (List LineEvent)) :
    (startLoop s runs).lastSentTime = runs.flatten.foldl applyEvent s.lastSentTime := by
  induction runs generalizing s with
  | nil => rfl
  | cons evs rest ih =>
    have step : startLoop s (evs :: rest) = startLoop (runEvents (reopenUpdate s) evs) rest := rfl
    rw [step, ih, List.flatten_cons, List.foldl_append]
    have : (runEvents (reopenUpdate s) evs).lastSentTime = evs.foldl applyEvent s.lastSentTime := by
      unfold runEvents
      rw [reopenUpdate_lastSent]
    rw [this]

/-- C9: after any runs that delivered or dropped at least one line (all
line timestamps being real, non-zero instants), the next (re)open
requests sinceTime = lastSentTime + 1ns where lastSentTime is the
highest processed timestamp, so no processed line is re-requested. -/
theorem C9_stream_resume_cursor (s : StreamState) (runs : List (List LineEvent))
    (h0 : s.lastSentTime = 0)
    (hpos : ∀ ev ∈ runs.flatten, 0 < eventTs ev)
    (hne : runs.flatten ≠ []) :
    (nextOpen s runs).sinceTime = (runs.flatten.map eventTs).foldl max 0 + 1 ∧
    ∀ ev ∈ runs.flatten, eventTs ev < (nextOpen s runs).sinceTime := by
  have hlast : (startLoop s runs).lastSentTime = (runs.flatten.map eventTs).foldl max 0 := by
    rw [startLoop_lastSent, foldl_applyEvent_eq, h0]
  have hpos2 : 0 < (runs.flatten.map eventTs).foldl max 0 := by
    obtain ⟨ev, hev⟩ := List.exists_mem_of_ne_nil _ hne
    exact Nat.lt_of_lt_of_le (hpos ev hev)
      (le_foldl_max_of_mem (List.mem_map_of_mem eventTs hev) 0)
  have hL0 : (startLoop s runs).lastSentTime ≠ 0 := by
    rw [hlast]
    omega
  have hsince : (nextOpen s runs).sinceTime = (runs.flatten.map eventTs).foldl max 0 + 1 := by
    unfold nextOpen reopenUpdate
    rw [if_pos hL0]
    simpa using hlast
  refine ⟨hsince, fun ev hev => ?_⟩
  rw [hsince]
  exact Nat.lt_succ_of_le (le_foldl_max_of_mem (List.mem_map_of_mem eventTs hev) 0)

/-- C9 witness: two runs, one delivered and one dropped line. -/
theorem C9_stream_resume_cursor_witness :
    (StreamState.mk 0 0).lastSentTime = 0 ∧
    (∀ ev ∈ ([[LineEvent.sent 5], [LineEvent.dropped 7]] : List (List LineEvent)).flatten,
        0 < eventTs ev) ∧
    ([[LineEvent.sent 5], [LineEvent.dropped 7]] : List (List LineEvent)).flatten ≠ [] ∧
    ((nextOpen ⟨0, 0⟩ [[LineEvent.sent 5], [LineEvent.dropped 7]]).sinceTime =
        (([[LineEvent.sent 5], [LineEvent.dropped 7]] :
          List (List LineEvent)).flatten.map eventTs).foldl max 0 + 1 ∧
      ∀ ev ∈ ([[LineEvent.sent 5], [LineEvent.dropped 7]] : List (List LineEvent)).flatten,
        eventTs ev < (nextOpen ⟨0, 0⟩ [[LineEvent.sent 5], [LineEvent.dropped 7]]).sinceTime) :=
  ⟨rfl, by decide, by decide,
   C9_stream_resume_cursor ⟨0, 0⟩ [[LineEvent.sent 5], [LineEvent.dropped 7]]
     rfl (by decide) (by decide)⟩

/-- C8: the batcher circuit breaker.  (1) A write failure with the
circuit closed and four prior consecutive failures — the fifth in a
row — opens the circuit for circuitTimeout = 30s.  (2) While the
circuit reports open, a flush never invokes Store.Write and appends its
batch to the retry queue.  (3) Once the 30s window has elapsed, the
next check closes the circuit and resets the failure counter.  (4) A
successful write resets the consecutive-failure counter to zero. -/
theorem C8_circuit_breaker :
    (∀ (b : Batcher) (now : Nat) (batch : List LogEntry),
       batch ≠ [] → b.circuitOpen = false → b.consecutiveFailures = 4 →
       (batcherFlush now batch false b).1.circuitOpen = true ∧
       (batcherFlush now batch false b).1.circuitOpenUntil = now + circuitTimeout) ∧
    (∀ (b : Batcher) (now : Nat) (batch : List LogEntry) (writeOk : Bool),
       batch ≠ [] → (isCircuitOpenUpd now b).1 = true →
       (batcherFlush now batch writeOk b).2 = false ∧
       (batcherFlush now batch writeOk b).1.retryQueue =
         (if maxRetryQueue ≤ b.retryQueue.length then b.retryQueue.tail else b.retryQueue)
           ++ [batch]) ∧
    (∀ (b : Batcher) (now : Nat),
       b.circuitOpen = true → b.circuitOpenUntil < now →
       (isCircuitOpenUpd now b).1 = false ∧
       (isCircuitOpenUpd now b).2.circuitOpen = false ∧
       (isCircuitOpenUpd now b).2.consecutiveFailures = 0) ∧
    (∀ (b : Batcher) (now : Nat) (batch : List LogEntry),
       batch ≠ [] → (isCircuitOpenUpd now b).1 = false →
       (batcherFlush now batch true b).1.consecutiveFailures = 0 ∧
       (batcherFlush now batch true b).2 = true) := by
  refine ⟨?_, ?_, ?_, ?_⟩
  · intro b now batch hne hco hcf
    have hbe : batch.isEmpty = false := by simpa [List.isEmpty_iff] using hne
    have hst : isCircuitOpenUpd now b = (false, b) := by
      simp [isCircuitOpenUpd, hco]
    simp [batcherFlush, hbe, hst, addToRetryQueue, recordFailure, hcf,
      circuitThreshold, circuitTimeout]
  · intro b now batch writeOk hne hopen
    have hbe : batch.isEmpty = false := by simpa [List.isEmpty_iff] using hne
    have hst : isCircuitOpenUpd now b = (true, b) := by
      cases hco : b.circuitOpen with
      | false => simp [isCircuitOpenUpd, hco] at hopen
      | true =>
        cases hlt : decide (b.circuitOpenUntil < now) with
        | true => simp [isCircuitOpenUpd, hco, hlt] at hopen
        | false => simp [isCircuitOpenUpd, hco, hlt]
    simp [batcherFlush, hbe, hst, addToRetryQueue]
  · intro b now hco hlt
    simp [isCircuitOpenUpd, hco, hlt]
  · intro b now batch hne hopen
    have hbe : batch.isEmpty = false := by simpa [List.isEmpty_iff] using hne
    simp [batcherFlush, hbe, hopen, recordSuccess]

/-- C8 witness: concrete batcher states for each of the four parts. -/
theorem C8_circuit_breaker_witness :
    (([⟨0, ("n"), ("p"), ("c"), 3, ("m"), []⟩] : List LogEntry) ≠ [] ∧
     (Batcher.mk 4 false 0 [] 1).circuitOpen = false ∧
     (Batcher.mk 4 false 0 [] 1).consecutiveFailures = 4 ∧
     (batcherFlush 10 [⟨0, ("n"), ("p"), ("c"), 3, ("m"), []⟩] false
        ⟨4, false, 0, [], 1⟩).1.circuitOpen = true ∧
     (batcherFlush 10 [⟨0, ("n"), ("p"), ("c"), 3, ("m"), []⟩] false
        ⟨4, false, 0, [], 1⟩).1.circuitOpenUntil = 10 + circuitTimeout) ∧
    ((isCircuitOpenUpd 10 ⟨5, true, 100, [], 1⟩).1 = true ∧
     (batcherFlush 10 [⟨0, ("n"), ("p"), ("c"), 3, ("m"), []⟩] false
        ⟨5, true, 100, [], 1⟩).2 = false ∧
     (batcherFlush 10 [⟨0, ("n"), ("p"), ("c"), 3, ("m"), []⟩] false
        ⟨5, true, 100, [], 1⟩).1.retryQueue =
       (if maxRetryQueue ≤ (Batcher.mk 5 true 100 [] 1).retryQueue.length
         then (Batcher.mk 5 true 100 [] 1).retryQueue.tail
         else (Batcher.mk 5 true 100 [] 1).retryQueue)
         ++ [[⟨0, ("n"), ("p"), ("c"), 3, ("m"), []⟩]]) ∧
    ((Batcher.mk 5 true 3 [] 1).circuitOpenUntil < 10 ∧
     (isCircuitOpenUpd 10 ⟨5, true, 3, [], 1⟩).1 = false ∧
     (isCircuitOpenUpd 10 ⟨5, true, 3, [], 1⟩).2.circuitOpen = false ∧
     (isCircuitOpenUpd 10 ⟨5, true, 3, [], 1⟩).2.consecutiveFailures = 0) ∧
    ((batcherFlush 10 [⟨0, ("n"), ("p"), ("c"), 3, ("m"), []⟩] true
        ⟨4, false, 0, [], 1⟩).1.consecutiveFailures = 0 ∧
     (batcherFlush 10 [⟨0, ("n"), ("p"), ("c"), 3, ("m"), []⟩] true
        ⟨4, false, 0, [], 1⟩).2 = true) :=
  ⟨⟨by decide, rfl, rfl,
    (C8_circuit_breaker.1 ⟨4, false, 0, [], 1⟩ 10
      [⟨0, ("n"), ("p"), ("c"), 3, ("m"), []⟩] (by decide) rfl rfl).1,
    (C8_circuit_breaker.1 ⟨4, false, 0, [], 1⟩ 10
      [⟨0, ("n"), ("p"), ("c"), 3, ("m"), []⟩] (by decide) rfl rfl).2⟩,
   ⟨by decide,
    (C8_circuit_breaker.2.1 ⟨5, true, 100, [], 1⟩ 10
      [⟨0, ("n"), ("p"), ("c"), 3, ("m"), []⟩] false (by decide) (by decide)).1,
    (C8_circuit_breaker.2.1 ⟨5, true, 100, [], 1⟩ 10
      [⟨0, ("n"), ("p"), ("c"), 3, ("m"), []⟩] false (by decide) (by decide)).2⟩,
   ⟨by decide,
    (C8_circuit_breaker.2.2.1 ⟨5, true, 3, [], 1⟩ 10 rfl (by decide)).1,
    (C8_circuit_breaker.2.2.1 ⟨5, true, 3, [], 1⟩ 10 rfl (by decide)).2.1,
    (C8_circuit_breaker.2.2.1 ⟨5, true, 3, [], 1⟩ 10 rfl (by decide)).2.2⟩,
   ⟨(C8_circuit_breaker.2.2.2 ⟨4, false, 0, [], 1⟩ 10
      [⟨0, ("n"), ("p"), ("c"), 3, ("m"), []⟩] (by decide) (by decide)).1,
    (C8_circuit_breaker.2.2.2 ⟨4, false, 0, [], 1⟩ 10
      [⟨0, ("n"), ("p"), ("c"), 3, ("m"), []⟩] (by decide) (by decide)).2⟩⟩

/-- C1: evaluation of Parser.Parse at the claim input line
2024-01-15T10:30:00Z followed by the JSON body with level INFO, msg
test, traceId abc, user_id 42.  The code returns the raw JSON body as
Message (not the msg field value) and an attribute map that DOES
contain the key msg; severity INFO and the trace_id/user_id extraction
behave as claimed.  This contradicts the claim (and the parser tests in
the repository, which require msg to replace Message and to be absent
from attributes); the result is independent of the logfmt/regex
fall-through. -/
theorem C1_parser_keeps_raw_message_and_msg_attribute :
    ∀ fallback : Nat × Option (List (String × String)),
      (parseOnJsonLine 1705314600000000000
        ("\x7b\"level\":\"INFO\",\"msg\":\"test\",\"traceId\":\"abc\",\"user_id\":42\x7d")
        [(("level"), Jval.jstr ("INFO")), (("msg"), Jval.jstr ("test")),
         (("traceId"), Jval.jstr ("abc")), (("user_id"), Jval.jint 42)]
        fallback).message =
        ("\x7b\"level\":\"INFO\",\"msg\":\"test\",\"traceId\":\"abc\",\"user_id\":42\x7d") ∧
      ("\x7b\"level\":\"INFO\",\"msg\":\"test\",\"traceId\":\"abc\",\"user_id\":42\x7d" : String)
        ≠ ("test") ∧
      (parseOnJsonLine 1705314600000000000
        ("\x7b\"level\":\"INFO\",\"msg\":\"test\",\"traceId\":\"abc\",\"user_id\":42\x7d")
        [(("level"), Jval.jstr ("INFO")), (("msg"), Jval.jstr ("test")),
         (("traceId"), Jval.jstr ("abc")), (("user_id"), Jval.jint 42)]
        fallback).severity = 3 ∧
      (parseOnJsonLine 1705314600000000000
        ("\x7b\"level\":\"INFO\",\"msg\":\"test\",\"traceId\":\"abc\",\"user_id\":42\x7d")
        [(("level"), Jval.jstr ("INFO")), (("msg"), Jval.jstr ("test")),
         (("traceId"), Jval.jstr ("abc")), (("user_id"), Jval.jint 42)]
        fallback).attributes =
        some [(("msg"), ("test")), (("trace_id"), ("abc")), (("user_id"), ("42"))] := by
  intro fallback
  have hr : parseJSONData
      [(("level"), Jval.jstr ("INFO")), (("msg"), Jval.jstr ("test")),
       (("traceId"), Jval.jstr ("abc")), (("user_id"), Jval.jint 42)] =
      (3, some [(("msg"), ("test")), (("trace_id"), ("abc")), (("user_id"), ("42"))]) := by
    decide
  refine ⟨?_, by decide, ?_, ?_⟩ <;>
    simp [parseOnJsonLine, parseStructuredJson, hr]

/-- Equal dedup tuples hash equally. -/
theorem entryHash_congr {x e : LogEntry} (h : dedupTuple x = dedupTuple e) :
    entryHash x = entryHash e := by
  cases x
  cases e
  simp only [dedupTuple, Prod.mk.injEq] at h
  obtain ⟨h1, h2, h3, h4, h5⟩ := h
  simp [entryHash, h1, h2, h3, h4, h5]

/-- An insert whose hash already exists is ignored. -/
theorem insertEntry_of_conflict (db : DB) (e : LogEntry)
    (h : ∃ r ∈ db.rows, r.hash = some (entryHash e)) : insertEntry db e = db := by
  unfold insertEntry
  rw [if_pos]
  rcases h with ⟨r, hr, hh⟩
  exact List.any_eq_true.mpr ⟨r, hr, by simp [hh]⟩

/-- A whole batch of entries whose hashes already exist is ignored. -/
theorem foldl_insert_of_conflict (db : DB) (e : LogEntry) (es : List LogEntry)
    (hall : ∀ x ∈ es, entryHash x = entryHash e)
    (h : ∃ r ∈ db.rows, r.hash = some (entryHash e)) :
    es.foldl insertEntry db = db := by
  induction es with
  | nil => rfl
  | cons x rest ih =>
    have hx : insertEntry db x = db := by
      apply insertEntry_of_conflict
      rw [hall x (List.mem_cons_self x rest)]
      exact h
    rw [List.foldl_cons, hx]
    exact ih (fun y hy => hall y (List.mem_cons_of_mem x hy))

/-- An insert with a fresh hash appends exactly one row. -/
theorem insertEntry_of_fresh (db : DB) (e : LogEntry)
    (h : ∀ r ∈ db.rows, r.hash ≠ some (entryHash e)) :
    insertEntry db e = { rows := db.rows ++ [mkRow db e], nextId := db.nextId + 1 } := by
  unfold insertEntry
  rw [if_neg]
  simp only [List.any_eq_true, not_exists]
  intro r
  simp only [not_and, beq_iff_eq]
  exact fun hr => h r hr

/-- C4: writing entries with one and the same dedup tuple repeatedly,
with a flush between writes, adds exactly one row on the first write
and none on any later write, leaving exactly one persisted row for that
tuple. -/
theorem C4_dedup_idempotent_writes (db : DB) (e : LogEntry) (es : List LogEntry)
    (hall : ∀ x ∈ es, dedupTuple x = dedupTuple e)
    (hfresh : ∀ r ∈ db.rows, r.hash ≠ some (entryHash e))
    (htuple : ∀ r ∈ db.rows, rowTuple r ≠ dedupTuple e)
    (hne : es ≠ []) :
    (∀ k, 1 ≤ k →
       ((es.take k).foldl insertEntry db).rows.length = db.rows.length + 1) ∧
    ((es.foldl insertEntry db).rows.filter
        (fun r => decide (rowTuple r = dedupTuple e))).length = 1 := by
  rcases es with _ | ⟨x, rest⟩
  · exact absurd rfl hne
  have hx : dedupTuple x = dedupTuple e := hall x (List.mem_cons_self x rest)
  have hhx : entryHash x = entryHash e := entryHash_congr hx
  have hfreshx : ∀ r ∈ db.rows, r.hash ≠ some (entryHash x) := by
    rw [hhx]
    exact hfresh
  have hdb1 : insertEntry db x = { rows := db.rows ++ [mkRow db x], nextId := db.nextId + 1 } :=
    insertEntry_of_fresh db x hfreshx
  have hconf : ∃ r ∈ (insertEntry db x).rows, r.hash = some (entryHash e) := by
    refine ⟨mkRow db x, ?_, ?_⟩
    · rw [hdb1]
      simp
    · simp [mkRow, hhx]
  constructor
  · intro k hk
    rcases k with _ | k2
    · omega
    have htake : (x :: rest).take (k2 + 1) = x :: rest.take k2 := rfl
    rw [htake, List.foldl_cons,
      foldl_insert_of_conflict (insertEntry db x) e (rest.take k2)
        (fun y hy => entryHash_congr
          (hall y (List.mem_cons_of_mem x (List.mem_of_mem_take hy)))) hconf,
      hdb1]
    simp
  · rw [List.foldl_cons,
      foldl_insert_of_conflict (insertEntry db x) e rest
        (fun y hy => entryHash_congr (hall y (List.mem_cons_of_mem x hy))) hconf,
      hdb1]
    simp only [List.filter_append]
    have hnil : db.rows.filter (fun r => decide (rowTuple r = dedupTuple e)) = [] := by
      rw [List.filter_eq_nil_iff]
      intro r hr
      simpa using htuple r hr
    have hone : [mkRow db x].filter (fun r => decide (rowTuple r = dedupTuple e)) =
        [mkRow db x] := by
      simp [List.filter, mkRow, rowTuple]
      cases x
      simp only [dedupTuple, Prod.mk.injEq] at hx
      obtain ⟨h1, h2, h3, h4, h5⟩ := hx
      simp [h1, h2, h3, h4, h5, dedupTuple]
    rw [hnil, hone]
    simp

/-- C4 witness: three writes of the same entry into an empty store. -/
theorem C4_dedup_idempotent_writes_witness :
    (∀ x ∈ ([⟨0, ("n"), ("p"), ("c"), 3, ("m"), []⟩, ⟨0, ("n"), ("p"), ("c"), 3, ("m"), []⟩,
        ⟨0, ("n"), ("p"), ("c"), 3, ("m"), []⟩] : List LogEntry),
      dedupTuple x = dedupTuple ⟨0, ("n"), ("p"), ("c"), 3, ("m"), []⟩) ∧
    (([⟨0, ("n"), ("p"), ("c"), 3, ("m"), []⟩, ⟨0, ("n"), ("p"), ("c"), 3, ("m"), []⟩,
        ⟨0, ("n"), ("p"), ("c"), 3, ("m"), []⟩] : List LogEntry) ≠ []) ∧
    (∀ k, 1 ≤ k →
      ((([⟨0, ("n"), ("p"), ("c"), 3, ("m"), []⟩, ⟨0, ("n"), ("p"), ("c"), 3, ("m"), []⟩,
          ⟨0, ("n"), ("p"), ("c"), 3, ("m"), []⟩] : List LogEntry).take k).foldl
        insertEntry ⟨[], 1⟩).rows.length = (DB.mk [] 1).rows.length + 1) ∧
    (List.filter
        (fun r => decide (rowTuple r = dedupTuple ⟨0, ("n"), ("p"), ("c"), 3, ("m"), []⟩))
        (([⟨0, ("n"), ("p"), ("c"), 3, ("m"), []⟩, ⟨0, ("n"), ("p"), ("c"), 3, ("m"), []⟩,
          ⟨0, ("n"), ("p"), ("c"), 3, ("m"), []⟩] : List LogEntry).foldl
          insertEntry ⟨[], 1⟩).rows).length = 1 :=
  ⟨by decide, by decide,
   (C4_dedup_idempotent_writes ⟨[], 1⟩ ⟨0, ("n"), ("p"), ("c"), 3, ("m"), []⟩
      [⟨0, ("n"), ("p"), ("c"), 3, ("m"), []⟩, ⟨0, ("n"), ("p"), ("c"), 3, ("m"), []⟩,
       ⟨0, ("n"), ("p"), ("c"), 3, ("m"), []⟩]
      (by decide) (by decide) (by decide) (by decide)).1,
   (C4_dedup_idempotent_writes ⟨[], 1⟩ ⟨0, ("n"), ("p"), ("c"), 3, ("m"), []⟩
      [⟨0, ("n"), ("p"), ("c"), 3, ("m"), []⟩, ⟨0, ("n"), ("p"), ("c"), 3, ("m"), []⟩,
       ⟨0, ("n"), ("p"), ("c"), 3, ("m"), []⟩]
      (by decide) (by decide) (by decide) (by decide)).2⟩

/-- Sorting never changes the number of fetched rows. -/
theorem sortRows_length (o : Order) (l : List Row) : (sortRows o l).length = l.length := by
  cases o <;> simp [sortRows, List.length_mergeSort]

/-- The number of entries a query returns is the effective limit capped
by the number of matching rows. -/
theorem queryExec_length (fts : String → String → Bool) (q : Query) (table : List Row) :
    (queryExec fts q table).entries.length =
      min (effectiveLimit q) ((table.filter (rowMatches fts q)).length) := by
  simp only [queryExec]
  split
  case isTrue h =>
    simp only [List.length_take, sortRows_length] at h ⊢
    omega
  case isFalse h =>
    simp only [List.length_take, sortRows_length] at h ⊢
    omega

/-- A query with no filters and no afterId matches every row. -/
theorem rowMatches_plain (lim : Int) (r : Row) :
    rowMatches noFts (plainQuery lim 0) r = true := by
  simp [rowMatches, plainQuery, noFts]

/-- C2 (amended): the storage engine returns at most the effective
limit of entries, which defaults to 100 when the requested limit is
zero or negative (the engine applies no further cap), and default
(DESC) order yields strictly descending ids. -/
theorem C2_query_default_limit_and_desc_order (fts : String → String → Bool)
    (q : Query) (table : List Row) (hids : (table.map Row.id).Nodup) :
    (queryExec fts q table).entries.length ≤ effectiveLimit q ∧
    (q.pagination.limit ≤ 0 → (queryExec fts q table).entries.length ≤ 100) ∧
    (q.pagination.order = Order.desc →
      List.Pairwise (fun a b => b.id < a.id) (queryExec fts q table).entries) := by
  refine ⟨?_, ?_, ?_⟩
  · rw [queryExec_length]
    exact Nat.min_le_left _ _
  · intro hlim
    rw [queryExec_length]
    have h100 : effectiveLimit q = 100 := by
      simp [effectiveLimit, if_pos hlim]
    rw [h100]
    exact Nat.min_le_left _ _
  · intro hdesc
    have hpair : List.Pairwise (fun a b : Row => descLe a b = true)
        ((table.filter (rowMatches fts q)).mergeSort descLe) :=
      List.sorted_mergeSort
        (by
          intro a b c hab hbc
          simp only [descLe, decide_eq_true_eq] at hab hbc ⊢
          omega)
        (by
          intro a b
          simp only [descLe, Bool.or_eq_true, decide_eq_true_eq]
          omega)
        (table.filter (rowMatches fts q))
    have hnd : (((table.filter (rowMatches fts q)).mergeSort descLe).map Row.id).Nodup := by
      have h1 : ((table.filter (rowMatches fts q)).map Row.id).Nodup :=
        ((List.filter_sublist table).map Row.id).nodup hids
      exact (((List.mergeSort_perm (table.filter (rowMatches fts q)) descLe).map
        Row.id).symm).nodup h1
    have hpairne : List.Pairwise (fun a b : Row => a.id ≠ b.id)
        ((table.filter (rowMatches fts q)).mergeSort descLe) :=
      List.pairwise_map.mp hnd
    have hstrict : List.Pairwise (fun a b : Row => b.id < a.id)
        ((table.filter (rowMatches fts q)).mergeSort descLe) := by
      refine (hpair.and hpairne).imp ?_
      intro a b hab
      rcases hab with ⟨hle, hne⟩
      simp only [descLe, decide_eq_true_eq] at hle
      omega
    simp only [queryExec, hdesc, sortRows]
    split
    · exact hstrict.sublist
        ((List.take_sublist _ _).trans (List.take_sublist _ _))
    · exact hstrict.sublist (List.take_sublist _ _)

/-- C2 witness: a concrete query (limit -1, DESC) on a three-row store. -/
theorem C2_query_default_limit_and_desc_order_witness :
    ((descTable 3).map Row.id).Nodup ∧
    ((queryExec noFts (plainQuery (-1) 0) (descTable 3)).entries.length ≤
        effectiveLimit (plainQuery (-1) 0) ∧
      ((plainQuery (-1) 0).pagination.limit ≤ 0 →
        (queryExec noFts (plainQuery (-1) 0) (descTable 3)).entries.length ≤ 100) ∧
      ((plainQuery (-1) 0).pagination.order = Order.desc →
        List.Pairwise (fun a b => b.id < a.id)
          (queryExec noFts (plainQuery (-1) 0) (descTable 3)).entries)) :=
  ⟨by decide,
   C2_query_default_limit_and_desc_order noFts (plainQuery (-1) 0) (descTable 3) (by decide)⟩

/-- C2 counterexample: the storage engine applies no 1000-row cap; a
query with limit 1001 against a store of 1002 rows returns 1001
entries. -/
theorem C2_counterexample_limit_not_capped :
    1000 < (queryExec noFts (plainQuery 1001 0) (descTable 1002)).entries.length := by
  rw [queryExec_length]
  have h1 : (descTable 1002).filter (rowMatches noFts (plainQuery 1001 0)) = descTable 1002 :=
    List.filter_eq_self.mpr (fun r _ => rowMatches_plain 1001 r)
  have h2 : (descTable 1002).length = 1002 := by
    simp [descTable]
  have h3 : effectiveLimit (plainQuery 1001 0) = 1001 := by decide
  rw [h1, h2, h3]
  omega

/-- C3: evaluation of cursor pagination at a 10-row store under the
default (DESC) order.  The first page (limit 3) returns ids 10, 9, 8
with hasMore and nextCursor = 7 — the id of the fourth fetched row, as
the claim says — but the follow-up query with afterId = 7 returns ids
10, 9, 8 again: the bound id > afterId combined with DESC order
re-fetches the first page instead of the next three entries, so the
pages overlap completely and ids 7..1 are never reached. -/
theorem C3_pagination_second_page_repeats_first :
    (queryExec noFts (plainQuery 3 0) (descTable 10)).entries.map Row.id = [10, 9, 8] ∧
    (queryExec noFts (plainQuery 3 0) (descTable 10)).hasMore = true ∧
    (queryExec noFts (plainQuery 3 0) (descTable 10)).nextCursor = 7 ∧
    (queryExec noFts (plainQuery 3 7) (descTable 10)).entries.map Row.id = [10, 9, 8] := by
  have hms1 : sortRows (plainQuery 3 0).pagination.order
      ((descTable 10).filter (rowMatches noFts (plainQuery 3 0))) = descTable 10 := by
    have hfil : (descTable 10).filter (rowMatches noFts (plainQuery 3 0)) = descTable 10 :=
      List.filter_eq_self.mpr (fun r _ => rowMatches_plain 3 r)
    rw [hfil]
    exact List.mergeSort_of_sorted (by decide)
  have hms2 : sortRows (plainQuery 3 7).pagination.order
      ((descTable 10).filter (rowMatches noFts (plainQuery 3 7))) =
      [plainRow 10, plainRow 9, plainRow 8] := by
    have hfil : (descTable 10).filter (rowMatches noFts (plainQuery 3 7)) =
        [plainRow 10, plainRow 9, plainRow 8] := by decide
    rw [hfil]
    exact List.mergeSort_of_sorted (by decide)
  have h1 : queryExec noFts (plainQuery 3 0) (descTable 10) =
      ⟨[plainRow 10, plainRow 9, plainRow 8], true, 7⟩ := by
    unfold queryExec
    rw [hms1]
    rfl
  have h2 : queryExec noFts (plainQuery 3 7) (descTable 10) =
      ⟨[plainRow 10, plainRow 9, plainRow 8], false, 0⟩ := by
    unfold queryExec
    rw [hms2]
    rfl
  rw [h1, h2]
  exact ⟨rfl, rfl, rfl, rfl⟩

/-- A count strictly drops when the predicate weakens pointwise and
some member switches from satisfying to not. -/
theorem countP_lt_of_witness {α : Type} {p q : α → Bool} {l : List α}
    (hpq : ∀ x ∈ l, p x = true → q x = true) {x : α} (hx : x ∈ l) (hq : q x = true)
    (hp : p x = false) : l.countP p < l.countP q := by
  induction l with
  | nil => cases hx
  | cons y ys ih =>
    rcases List.mem_cons.mp hx with rfl | hmem
    · have hle : ys.countP p ≤ ys.countP q :=
        List.countP_mono_left (fun z hz => hpq z (List.mem_cons_of_mem _ hz))
      simp [List.countP_cons, hp, hq]
      omega
    · have ihh := ih (fun z hz => hpq z (List.mem_cons_of_mem _ hz)) hmem
      cases hpy : p y with
      | true =>
        have hqy := hpq y (List.mem_cons_self y ys) hpy
        simp [List.countP_cons, hpy, hqy]
        omega
      | false =>
        cases hqy : q y <;> simp [List.countP_cons, hpy, hqy] <;> omega

/-- setHashes keeps the id column. -/
theorem setHashes_map_id (ids : List Nat) (t : List Row) :
    (setHashes ids t).map Row.id = t.map Row.id := by
  unfold setHashes
  rw [List.map_map]
  apply List.map_congr_left
  intro r _
  simp only [Function.comp]
  split <;> rfl

/-- Under distinct ids, rows whose id was selected for a backfill batch
had a NULL hash. -/
theorem batch_id_null {t : List Row} (hids : (t.map Row.id).Nodup) {k : Nat} {r : Row}
    (hr : r ∈ t) (hid : r.id ∈ ((t.filter isNullHash).take k).map Row.id) :
    r.hash = none := by
  rcases List.mem_map.mp hid with ⟨b, hb, hbid⟩
  have hbt := List.mem_of_mem_take hb
  have hbf := (List.mem_filter.mp hbt).2
  have hbt2 : b ∈ t := (List.mem_filter.mp hbt).1
  have hbr : b = r := List.inj_on_of_nodup_map hids hbt2 hr hbid
  subst hbr
  simpa [isNullHash] using hbf

/-- The backfill loop, run with enough fuel, sets every NULL hash to
the recomputed row hash and keeps every stored hash. -/
theorem backfillLoop_eq (fuel : Nat) (t : List Row) (hids : (t.map Row.id).Nodup)
    (hf : t.countP isNullHash < fuel) :
    backfillLoop fuel t = t.map (fun r => { r with hash := some (effHash r) }) := by
  induction fuel generalizing t with
  | zero => omega
  | succ n ih =>
    rw [backfillLoop]
    by_cases hb : ((t.filter isNullHash).take 10000).isEmpty
    · rw [if_pos hb]
      have hnil : t.filter isNullHash = [] := by
        rcases List.take_eq_nil_iff.mp (List.isEmpty_iff.mp hb) with h | h
        · omega
        · exact h
      have hnonull : ∀ r ∈ t, r.hash ≠ none := by
        intro r hr hno
        have : isNullHash r = true := by simp [isNullHash, hno]
        exact absurd (List.filter_eq_nil_iff.mp hnil r hr) (by simp [this])
      have hid2 : ∀ r ∈ t, ({ r with hash := some (effHash r) } : Row) = id r := by
        intro r hr
        rcases hh : r.hash with _ | h
        · exact absurd hh (hnonull r hr)
        · cases r
          simp only [effHash]
          simp_all
      rw [List.map_congr_left hid2, List.map_id]
    · rw [if_neg hb]
      have hnullsel : ∀ r ∈ t, r.id ∈ ((t.filter isNullHash).take 10000).map Row.id →
          r.hash = none := fun r hr hid => batch_id_null hids hr hid
      have hids2 : ((setHashes (((t.filter isNullHash).take 10000).map Row.id) t).map
          Row.id).Nodup := by
        rw [setHashes_map_id]
        exact hids
      have hcount : (setHashes (((t.filter isNullHash).take 10000).map Row.id) t).countP
          isNullHash < n := by
        have hne2 : (t.filter isNullHash).take 10000 ≠ [] := by
          intro hnil2
          exact hb (by rw [hnil2]; rfl)
        obtain ⟨b, hbmem⟩ := List.exists_mem_of_ne_nil _ hne2
        have hbt : b ∈ t := (List.mem_filter.mp (List.mem_of_mem_take hbmem)).1
        have hbnull : isNullHash b = true :=
          (List.mem_filter.mp (List.mem_of_mem_take hbmem)).2
        have hbid : b.id ∈ ((t.filter isNullHash).take 10000).map Row.id :=
          List.mem_map_of_mem Row.id hbmem
        unfold setHashes
        rw [List.countP_map]
        have hlt : t.countP
            (isNullHash ∘ (fun r => if (((t.filter isNullHash).take 10000).map
                Row.id).contains r.id then { r with hash := some (rowHash r) } else r)) <
            t.countP isNullHash := by
          refine countP_lt_of_witness ?_ hbt hbnull ?_
          · intro x hx hpx
            simp only [Function.comp] at hpx
            split at hpx
            · simp [isNullHash] at hpx
            · exact hpx
          · have hcb : (((t.filter isNullHash).take 10000).map Row.id).contains b.id = true := by
              simpa using hbid
            simp only [Function.comp]
            rw [if_pos hcb]
            simp [isNullHash]
        exact Nat.lt_of_lt_of_le hlt (Nat.lt_succ_iff.mp hf)
      have hmap : (setHashes (((t.filter isNullHash).take 10000).map Row.id) t).map
          (fun r => { r with hash := some (effHash r) }) =
          t.map (fun r => { r with hash := some (effHash r) }) := by
        unfold setHashes
        rw [List.map_map]
        apply List.map_congr_left
        intro r hr
        simp only [Function.comp]
        by_cases hc : (((t.filter isNullHash).take 10000).map Row.id).contains r.id = true
        · have hnull : r.hash = none := hnullsel r hr (by simpa using hc)
          rw [if_pos hc]
          rcases r with ⟨rid, rts, rns, rpod, rcont, rsev, rmsg, rattr, rhash⟩
          simp only at hnull
          subst hnull
          simp [effHash]
        · rw [if_neg hc]
      rw [ih _ hids2 hcount, hmap]

/-- backfillDedupHashes fills every NULL hash with the recomputed row
hash and keeps every stored hash. -/
theorem backfill_eq (t : List Row) (hids : (t.map Row.id).Nodup) :
    backfillDedupHashes t = t.map (fun r => { r with hash := some (effHash r) }) :=
  backfillLoop_eq (t.length + 1) t hids
    (Nat.lt_succ_of_le (List.countP_le_length isNullHash))

/-- Every non-empty list of rows has an id-minimal element. -/
theorem exists_min_id (l : List Row) (hne : l ≠ []) :
    ∃ m ∈ l, ∀ x ∈ l, m.id ≤ x.id := by
  induction l with
  | nil => exact absurd rfl hne
  | cons a l2 ih =>
    by_cases h2 : l2 = []
    · subst h2
      refine ⟨a, List.mem_cons_self a [], ?_⟩
      intro x hx
      rcases List.mem_cons.mp hx with rfl | hx2
      · exact Nat.le_refl _
      · cases hx2
    · obtain ⟨m, hm, hmin⟩ := ih h2
      rcases Nat.le_total a.id m.id with hle | hle
      · refine ⟨a, List.mem_cons_self a l2, ?_⟩
        intro x hx
        rcases List.mem_cons.mp hx with rfl | hx2
        · exact Nat.le_refl _
        · exact Nat.le_trans hle (hmin x hx2)
      · refine ⟨m, List.mem_cons_of_mem a hm, ?_⟩
        intro x hx
        rcases List.mem_cons.mp hx with rfl | hx2
        · exact hle
        · exact hmin x hx2

/-- Unpacking the duplicate predicate. -/
theorem isDup_eq_true_iff (t : List Row) (r : Row) :
    isDup t r = true ↔
      r.hash.isSome = true ∧ ∃ r2 ∈ t, r2.hash = r.hash ∧ r2.id < r.id := by
  unfold isDup
  rw [Bool.and_eq_true, List.any_eq_true]
  constructor
  · rintro ⟨h1, r2, hr2, h2⟩
    rw [Bool.and_eq_true] at h2
    exact ⟨h1, r2, hr2, by simpa using h2.1, by simpa using h2.2⟩
  · rintro ⟨h1, r2, hr2, h2, h3⟩
    exact ⟨h1, r2, hr2, by simp [h2, h3]⟩

/-- The deduplication loop, run with enough fuel: the result is a
sublist of the input, contains no row that shares its hash with a
smaller-id row, and keeps every id-minimal row of each hash. -/
theorem dedupLoop_props (fuel : Nat) : ∀ (t : List Row), (t.map Row.id).Nodup →
    t.length < fuel →
    (dedupLoop fuel t).Sublist t ∧
    (∀ r ∈ dedupLoop fuel t, isDup (dedupLoop fuel t) r = false) ∧
    (∀ r ∈ t, (∀ r2 ∈ t, r2.hash = r.hash → r.id ≤ r2.id) → r ∈ dedupLoop fuel t) := by
  induction fuel with
  | zero =>
    intro t _ hf
    omega
  | succ n ih =>
    intro t hids hf
    by_cases hv : ((t.filter (isDup t)).take 10000).isEmpty
    · have hstep : dedupLoop (n + 1) t = t := by
        rw [dedupLoop]
        simp [dedupPass, hv]
      rw [hstep]
      have hnil : t.filter (isDup t) = [] := by
        rcases List.take_eq_nil_iff.mp (List.isEmpty_iff.mp hv) with h | h
        · omega
        · exact h
      refine ⟨List.Sublist.refl t, ?_, fun r hr _ => hr⟩
      intro r hr
      have := List.filter_eq_nil_iff.mp hnil r hr
      simpa using this
    · have hstep : dedupLoop (n + 1) t = dedupLoop n
          (t.filter (fun r => !((((t.filter (isDup t)).take 10000)).any
            (fun v => v.id == r.id)))) := by
        rw [dedupLoop]
        simp [dedupPass, hv]
      have hvne : (t.filter (isDup t)).take 10000 ≠ [] := by
        intro hnil2
        exact hv (by rw [hnil2]; rfl)
      obtain ⟨b, hbmem⟩ := List.exists_mem_of_ne_nil _ hvne
      have hbt : b ∈ t := (List.mem_filter.mp (List.mem_of_mem_take hbmem)).1
      have hids2 : ((t.filter (fun r => !((((t.filter (isDup t)).take 10000)).any
          (fun v => v.id == r.id)))).map Row.id).Nodup :=
        ((List.filter_sublist t).map Row.id).nodup hids
      have hlen2 : (t.filter (fun r => !((((t.filter (isDup t)).take 10000)).any
          (fun v => v.id == r.id)))).length < t.length := by
        apply List.length_filter_lt_length_iff_exists.mpr
        refine ⟨b, hbt, ?_⟩
        have : (((t.filter (isDup t)).take 10000)).any (fun v => v.id == b.id) = true :=
          List.any_eq_true.mpr ⟨b, hbmem, by simp⟩
        simp [this]
      obtain ⟨sub2, nodup2, min2⟩ := ih _ hids2 (by omega)
      rw [hstep]
      refine ⟨sub2.trans (List.filter_sublist t), nodup2, ?_⟩
      intro r hr hmin
      apply min2
      · rw [List.mem_filter]
        refine ⟨hr, ?_⟩
        have hany : (((t.filter (isDup t)).take 10000)).any (fun v => v.id == r.id) = false := by
          rw [List.any_eq_false]
          intro v hvmem
          have hvfil := List.mem_of_mem_take hvmem
          have hvt := (List.mem_filter.mp hvfil).1
          have hvdup := (List.mem_filter.mp hvfil).2
          simp only [beq_iff_eq]
          intro heq
          have hvr : v = r := List.inj_on_of_nodup_map hids hvt hr heq
          rw [hvr] at hvdup
          rcases (isDup_eq_true_iff t r).mp hvdup with ⟨_, r2, hr2t, hh, hlt⟩
          have := hmin r2 hr2t hh
          omega
        simp [hany]
      · intro r2 hr2 hh
        exact hmin r2 (List.mem_filter.mp hr2).1 hh

/-- C6: opening a pre-dedup database (dedup_hash column present, index
absent, possibly with NULL hashes and colliding hashes) migrates it so
that afterwards the index exists, a second open changes nothing, every
surviving row is a backfilled original row (hence has a non-NULL hash),
and for each hash value exactly one row survives — the one with the
smallest id. -/
theorem C6_migration_keep_smallest_id (db : DBFile)
    (hcol : db.hasDedupColumn = true) (hidx : db.hasDedupIndex = false)
    (hids : (db.table.map Row.id).Nodup) :
    (runMigrations db).hasDedupIndex = true ∧
    (runMigrations db).hasDedupColumn = true ∧
    runMigrations (runMigrations db) = runMigrations db ∧
    (∀ r ∈ (runMigrations db).table,
      ∃ r0 ∈ db.table, r = { r0 with hash := some (effHash r0) }) ∧
    (∀ r0 ∈ db.table,
      ∃ r ∈ (runMigrations db).table,
        r.hash = some (effHash r0) ∧
        (∀ r1 ∈ db.table, effHash r1 = effHash r0 → r.id ≤ r1.id) ∧
        (∀ r2 ∈ (runMigrations db).table, r2.hash = some (effHash r0) → r2 = r)) := by
  have hrun : runMigrations db =
      ⟨deduplicateHashes (backfillDedupHashes db.table), true, true⟩ := by
    unfold runMigrations
    rw [hcol, hidx]
    simp
  have hbf : backfillDedupHashes db.table =
      db.table.map (fun r => { r with hash := some (effHash r) }) := backfill_eq _ hids
  have hbfids : ((backfillDedupHashes db.table).map Row.id).Nodup := by
    rw [hbf, List.map_map]
    have : (Row.id ∘ fun r => ({ r with hash := some (effHash r) } : Row)) = Row.id := by
      funext r
      rfl
    rw [this]
    exact hids
  have hdd : deduplicateHashes (backfillDedupHashes db.table) =
      dedupLoop ((backfillDedupHashes db.table).length + 1) (backfillDedupHashes db.table) :=
    rfl
  obtain ⟨hsub, hnodup, hmin⟩ :=
    dedupLoop_props ((backfillDedupHashes db.table).length + 1)
      (backfillDedupHashes db.table) hbfids (Nat.lt_succ_self _)
  rw [← hdd] at hsub hnodup hmin
  have hresids : ((deduplicateHashes (backfillDedupHashes db.table)).map Row.id).Nodup :=
    (hsub.map Row.id).nodup hbfids
  refine ⟨by rw [hrun], by rw [hrun], ?_, ?_, ?_⟩
  · rw [hrun]
    unfold runMigrations
    simp
  · intro r hr
    rw [hrun] at hr
    have hrbf : r ∈ backfillDedupHashes db.table := hsub.subset hr
    rw [hbf] at hrbf
    rcases List.mem_map.mp hrbf with ⟨r0, hr0, heq⟩
    exact ⟨r0, hr0, heq.symm⟩
  · intro r0 hr0
    have hfmem : ({ r0 with hash := some (effHash r0) } : Row) ∈ backfillDedupHashes db.table := by
      rw [hbf]
      exact List.mem_map_of_mem _ hr0
    have hfS : ({ r0 with hash := some (effHash r0) } : Row) ∈
        (backfillDedupHashes db.table).filter
          (fun x => x.hash == some (effHash r0)) := by
      rw [List.mem_filter]
      exact ⟨hfmem, by simp⟩
    have hSne : (backfillDedupHashes db.table).filter
        (fun x => x.hash == some (effHash r0)) ≠ [] := by
      intro hnil
      rw [hnil] at hfS
      cases hfS
    obtain ⟨m, hmS, hminS⟩ := exists_min_id _ hSne
    have hmbf : m ∈ backfillDedupHashes db.table := (List.mem_filter.mp hmS).1
    have hmhash : m.hash = some (effHash r0) := by
      have := (List.mem_filter.mp hmS).2
      simpa using this
    have hminbf : ∀ r2 ∈ backfillDedupHashes db.table, r2.hash = m.hash → m.id ≤ r2.id := by
      intro r2 hr2 hh
      apply hminS
      rw [List.mem_filter]
      refine ⟨hr2, ?_⟩
      rw [hh, hmhash]
      simp
    have hmres : m ∈ (runMigrations db).table := by
      rw [hrun]
      exact hmin m hmbf hminbf
    refine ⟨m, hmres, hmhash, ?_, ?_⟩
    · intro r1 hr1 hh
      have hf1 : ({ r1 with hash := some (effHash r1) } : Row) ∈ backfillDedupHashes db.table := by
        rw [hbf]
        exact List.mem_map_of_mem _ hr1
      have : m.id ≤ ({ r1 with hash := some (effHash r1) } : Row).id := by
        apply hminbf _ hf1
        show some (effHash r1) = m.hash
        rw [hmhash, hh]
      exact this
    · intro r2 hr2 hh2
      rw [hrun] at hr2
      have hmres2 : m ∈ (deduplicateHashes (backfillDedupHashes db.table)) := by
        rw [hrun] at hmres
        exact hmres
      by_contra hne
      have hidne : r2.id ≠ m.id := by
        intro hideq
        exact hne (List.inj_on_of_nodup_map hresids hr2 hmres2 hideq)
      rcases Nat.lt_or_ge r2.id m.id with hlt | hge
      · have : isDup (deduplicateHashes (backfillDedupHashes db.table)) m = true :=
          (isDup_eq_true_iff _ m).mpr ⟨by simp [hmhash], r2, hr2, by rw [hh2, hmhash], hlt⟩
        have hfalse := hnodup m hmres2
        rw [this] at hfalse
        cases hfalse
      · have hlt2 : m.id < r2.id := by omega
        have : isDup (deduplicateHashes (backfillDedupHashes db.table)) r2 = true :=
          (isDup_eq_true_iff _ r2).mpr
            ⟨by simp [hh2], m, hmres2, by rw [hh2, hmhash], hlt2⟩
        have hfalse := hnodup r2 hr2
        rw [this] at hfalse
        cases hfalse

/-- C6 witness: the migration fixture with a NULL-hash collision. -/
theorem C6_migration_keep_smallest_id_witness :
    migrationFixture.hasDedupColumn = true ∧
    migrationFixture.hasDedupIndex = false ∧
    (migrationFixture.table.map Row.id).Nodup ∧
    ((runMigrations migrationFixture).hasDedupIndex = true ∧
     (runMigrations migrationFixture).hasDedupColumn = true ∧
     runMigrations (runMigrations migrationFixture) = runMigrations migrationFixture ∧
     (∀ r ∈ (runMigrations migrationFixture).table,
       ∃ r0 ∈ migrationFixture.table, r = { r0 with hash := some (effHash r0) }) ∧
     (∀ r0 ∈ migrationFixture.table,
       ∃ r ∈ (runMigrations migrationFixture).table,
         r.hash = some (effHash r0) ∧
         (∀ r1 ∈ migrationFixture.table, effHash r1 = effHash r0 → r.id ≤ r1.id) ∧
         (∀ r2 ∈ (runMigrations migrationFixture).table,
           r2.hash = some (effHash r0) → r2 = r))) :=
  ⟨rfl, rfl, by decide,
   C6_migration_keep_smallest_id migrationFixture rfl rfl (by decide)⟩

end KubeLogs
